import Mathlib

/-!
Shallow embedding of the output-parsing and validation layer of the
Cline-AI-Agents-Assemble repository (src/src/validators.py,
src/generators/k8s_generator.py, src/generators/terraform_generator.py),
together with theorems settling the frozen claims about that layer.

Python strings are modelled as `String` / `List Char`; Python dicts that map
filenames to file contents are modelled as association lists with
insert-or-update (last-write-wins) semantics, mirroring insertion-ordered
Python dicts; YAML values produced by `yaml.safe_load` are modelled by the
inductive type `Yaml` (mapping keys are modelled as strings); fallible Python
expressions (operations that can raise `TypeError` / `AttributeError`) are
modelled with `Except String`.
-/

/-- Python's `str.isspace` / regex `\s` character class (ASCII part):
space, tab, newline, carriage return, vertical tab, form feed. -/
def isPySpace (c : Char) : Bool :=
  c == ' ' || c == '\t' || c == '\n' || c == '\r' || c == '\x0b' || c == '\x0c'

/-- Python `str.lstrip()` on a character list. -/
def pyLStrip (l : List Char) : List Char := l.dropWhile isPySpace

/-- Python `str.strip()` on a character list: drop leading and trailing
whitespace. -/
def pyStripC (l : List Char) : List Char :=
  ((pyLStrip l).reverse.dropWhile isPySpace).reverse

/-- Python `str.strip()` on strings. -/
def pyStripS (s : String) : String := (pyStripC s.data).asString

/-- Python `pat in s` substring test on character lists. -/
def isSubC (pat : List Char) : List Char → Bool
  | [] => pat.isEmpty
  | c :: rest => pat.isPrefixOf (c :: rest) || isSubC pat rest

/-- Python `s.startswith(pat)` on strings, at the character-list level. -/
def startsW (s pat : String) : Bool := pat.data.isPrefixOf s.data

/-- Python `s.count(c)` for a single character. -/
def countCharS (c : Char) (s : String) : Nat := s.data.count c

/-- Container mirroring the `ValidationResult` class of src/src/validators.py. -/
structure ValidationResult where
  valid : Bool
  errors : List String
  warnings : List String
  suggestions : List String
deriving DecidableEq, Repr

/-- Freshly constructed `ValidationResult()`: valid with empty lists. -/
def ValidationResult.empty : ValidationResult :=
  { valid := true, errors := [], warnings := [], suggestions := [] }

/-- `ValidationResult.add_error`: set `valid = False`, append the message. -/
def ValidationResult.add_error (r : ValidationResult) (m : String) : ValidationResult :=
  { r with valid := false, errors := r.errors ++ [m] }

/-- `ValidationResult.add_warning`: append the message, `valid` untouched. -/
def ValidationResult.add_warning (r : ValidationResult) (m : String) : ValidationResult :=
  { r with warnings := r.warnings ++ [m] }

/-- `ValidationResult.add_suggestion`: append the message, `valid` untouched. -/
def ValidationResult.add_suggestion (r : ValidationResult) (m : String) : ValidationResult :=
  { r with suggestions := r.suggestions ++ [m] }

/-- One mutating call on a `ValidationResult` (the only three mutators the
class exposes). -/
inductive VOp where
  | err (m : String)
  | warn (m : String)
  | sugg (m : String)

/-- Apply one mutating call. -/
def applyVOp (r : ValidationResult) : VOp → ValidationResult
  | .err m => r.add_error m
  | .warn m => r.add_warning m
  | .sugg m => r.add_suggestion m

/-- Run a sequence of mutating calls from a fresh result. -/
def runVOps (ops : List VOp) : ValidationResult :=
  ops.foldl applyVOp ValidationResult.empty

/-- Value produced by `yaml.safe_load`, as consumed by the validators.
Mapping keys are modelled as strings (the manifests the validators inspect
use string keys). -/
inductive Yaml where
  | null
  | bool (b : Bool)
  | int (n : Int)
  | str (s : String)
  | list (l : List Yaml)
  | map (l : List (String × Yaml))

/-- Python `key in v` (membership test). Key-lookup on dicts, element
membership on lists, substring test on strings; raises `TypeError` on
non-iterable values. -/
def pyContains (v : Yaml) (key : String) : Except String Bool :=
  match v with
  | .map l => .ok (l.any (fun p => p.1 == key))
  | .list l => .ok (l.any (fun x => match x with | .str s => s == key | _ => false))
  | .str s => .ok (isSubC key.data s.data)
  | _ => .error ("argument of type is not iterable")

/-- Python `v[key]` (subscription). Raises `TypeError` on strings and lists
subscripted with a string key, `KeyError` on dicts lacking the key. -/
def pyGetItem (v : Yaml) (key : String) : Except String Yaml :=
  match v with
  | .map l =>
    match l.lookup key with
    | some x => .ok x
    | none => .error ("KeyError: " ++ key)
  | .str _ => .error ("string indices must be integers")
  | .list _ => .error ("list indices must be integers")
  | _ => .error ("object is not subscriptable")

/-- Python `v.get(key, default)`. Only dicts have `.get`; anything else
raises `AttributeError`. -/
def pyGet (v : Yaml) (key : String) (dflt : Yaml) : Except String Yaml :=
  match v with
  | .map l => .ok ((l.lookup key).getD dflt)
  | _ => .error ("object has no attribute get")

/-- Python `v == "lit"` for a YAML value against a string literal: true
exactly when `v` is that string. -/
def yamlEqStr (v : Yaml) (s : String) : Bool :=
  match v with
  | .str t => t == s
  | _ => false

/-- Source `validate_yaml_syntax` (src/src/validators.py, lines 40-57),
modelled as a function of the outcome of `yaml.safe_load(content)`:
a `YAMLError` becomes one error entry, otherwise the result stays fresh. -/
def validate_yaml (p : Except String Yaml) : ValidationResult :=
  match p with
  | .error e => ValidationResult.empty.add_error ("YAML syntax error: " ++ e)
  | .ok _ => ValidationResult.empty

/-- Message of the generic catch-all error added by the `except` clause of
`validate_kubernetes_manifest` (line 115): `f"Validation error: {str(e)}"`. -/
def genErrMsg (e : String) : String := "Validation error: " ++ e

/-- Lines 103-106 of src/src/validators.py: the securityContext suggestion
inside the Deployment branch. Returns the updated result plus the pending
exception, if one was raised. -/
def inspectTemplate (v : Yaml) (r : ValidationResult) : ValidationResult × Option String :=
  match pyContains v "spec" with
  | .error e => (r, some e)
  | .ok hasSpec =>
    if hasSpec then
      match pyGetItem v "spec" with
      | .error e => (r, some e)
      | .ok sv =>
        match pyContains sv "template" with
        | .error e => (r, some e)
        | .ok hasTmpl =>
          if hasTmpl then
            match pyGetItem sv "template" with
            | .error e => (r, some e)
            | .ok tv =>
              match pyGet tv "spec" (Yaml.map []) with
              | .error e => (r, some e)
              | .ok ts =>
                match pyContains ts "securityContext" with
                | .error e => (r, some e)
                | .ok hasSC =>
                  (if hasSC then r
                   else r.add_suggestion "Consider adding securityContext for pod security", none)
          else (r, none)
    else (r, none)

/-- Lines 96-106: the `kind == "Deployment"` branch (spec / replicas checks,
then the securityContext block). -/
def inspectDeployment (v : Yaml) (r : ValidationResult) : ValidationResult × Option String :=
  match pyContains v "spec" with
  | .error e => (r, some e)
  | .ok hasSpec =>
    if hasSpec then
      match pyGetItem v "spec" with
      | .error e => (r, some e)
      | .ok sv =>
        match pyContains sv "replicas" with
        | .error e => (r, some e)
        | .ok hasRep =>
          inspectTemplate v
            (if hasRep then r
             else r.add_warning "Deployment spec missing replicas (will default to 1)")
    else inspectTemplate v (r.add_error "Deployment missing spec field")

/-- Lines 108-112: the `kind == "Service"` branch. -/
def inspectService (v : Yaml) (r : ValidationResult) : ValidationResult × Option String :=
  match pyContains v "spec" with
  | .error e => (r, some e)
  | .ok hasSpec =>
    if hasSpec then
      match pyGetItem v "spec" with
      | .error e => (r, some e)
      | .ok sv =>
        match pyContains sv "ports" with
        | .error e => (r, some e)
        | .ok hasPorts =>
          (if hasPorts then r else r.add_error "Service spec missing ports", none)
    else (r.add_error "Service missing spec field", none)

/-- Lines 93-112: `kind = manifest.get("kind", "")` and the dispatch on it. -/
def inspectKind (v : Yaml) (r : ValidationResult) : ValidationResult × Option String :=
  match pyGet v "kind" (Yaml.str "") with
  | .error e => (r, some e)
  | .ok kind =>
    if yamlEqStr kind "Deployment" then inspectDeployment v r
    else if yamlEqStr kind "Service" then inspectService v r
    else (r, none)

/-- Lines 89-91: the `metadata.name` check, then continue with the kind
dispatch. -/
def inspectMetadata (v : Yaml) (hasMeta : Bool) (r : ValidationResult) :
    ValidationResult × Option String :=
  if hasMeta then
    match pyGetItem v "metadata" with
    | .error e => (r, some e)
    | .ok mv =>
      match pyContains mv "name" with
      | .error e => (r, some e)
      | .ok hasName =>
        inspectKind v
          (if hasName then r else r.add_error "Missing required field: metadata.name")
  else inspectKind v r

/-- Body of the `try` block of `validate_kubernetes_manifest`
(lines 76-112): the sequence of structural checks, threaded through the
result; the second component is the exception that escaped, if any. -/
def inspectK8s (v : Yaml) (r : ValidationResult) : ValidationResult × Option String :=
  match pyContains v "apiVersion" with
  | .error e => (r, some e)
  | .ok hasApi =>
    let r := if hasApi then r else r.add_error "Missing required field: apiVersion"
    match pyContains v "kind" with
    | .error e => (r, some e)
    | .ok hasKind =>
      let r := if hasKind then r else r.add_error "Missing required field: kind"
      match pyContains v "metadata" with
      | .error e => (r, some e)
      | .ok hasMeta =>
        inspectMetadata v hasMeta
          (if hasMeta then r else r.add_error "Missing required field: metadata")

/-- Source `validate_kubernetes_manifest` (lines 60-117), as a function of
the `yaml.safe_load(content)` outcome: syntax check first (early return when
invalid), then the structural inspection with its catch-all `except` clause
turning an escaped exception into one generic error entry. -/
def validate_kubernetes_manifest (p : Except String Yaml) : ValidationResult :=
  let r := validate_yaml p
  if !r.valid then r
  else
    match p with
    | .error _ => r
    | .ok v =>
      match inspectK8s v r with
      | (r', none) => r'
      | (r', some e) => r'.add_error (genErrMsg e)

/-- Source `validate_terraform_syntax` (lines 120-152). The brace characters
are written via their code points to keep them out of string literals. -/
def validate_terraform (content : String) : ValidationResult :=
  let r := ValidationResult.empty
  if (pyStripC content.data).isEmpty then
    r.add_error "Empty Terraform file"
  else
    let ob := countCharS (Char.ofNat 123) content
    let cb := countCharS (Char.ofNat 125) content
    let r := if ob != cb then
        r.add_error ("Unbalanced braces: " ++ toString ob ++ " opening, " ++
          toString cb ++ " closing")
      else r
    let r := if !(isSubC ("provider \"").data content.data) then
        r.add_warning "No provider block found"
      else r
    let r := if !(isSubC ("terraform " ++ (Char.ofNat 123).toString).data content.data) then
        r.add_suggestion "Consider adding terraform block with required_version"
      else r
    r

/-- Python `content.strip().split('\n')`: split on every newline (single-
character separator semantics of `str.split('\n')`). -/
def splitNlC : List Char → List (List Char)
  | [] => [[]]
  | c :: rest =>
    if c == '\n' then [] :: splitNlC rest
    else
      match splitNlC rest with
      | h :: t => (c :: h) :: t
      | [] => [[c]]

/-- A line whose trimmed form starts with the COPY directive
(`line.strip().startswith('COPY')`). -/
def isCopyLine (l : List Char) : Bool := ("COPY".data).isPrefixOf (pyStripC l)

/-- A line whose trimmed form starts with the RUN directive
(`line.strip().startswith('RUN')`). -/
def isRunLine (l : List Char) : Bool := ("RUN".data).isPrefixOf (pyStripC l)

/-- The `enumerate(lines)` loop of `validate_dockerfile` (lines 191-195):
`copy_index` tracks the last line starting with COPY, `run_index` the first
line starting with RUN (the `elif` makes a COPY line never count as RUN),
both initialised to -1. -/
def copyRunScan : List (List Char) → Int → Int × Int → Int × Int
  | [], _, acc => acc
  | line :: rest, i, (ci, ri) =>
    if isCopyLine line then
      copyRunScan rest (i + 1) (i, ri)
    else if isRunLine line && ri == -1 then
      copyRunScan rest (i + 1) (ci, i)
    else copyRunScan rest (i + 1) (ci, ri)

/-- Source `validate_dockerfile` (lines 155-200). -/
def validate_dockerfile (content : String) : ValidationResult :=
  let lines := splitNlC (pyStripC content.data)
  let r := ValidationResult.empty
  let hasFrom := lines.any (fun l => ("FROM".data).isPrefixOf (pyStripC l))
  let r := if !hasFrom then r.add_error "Dockerfile must start with FROM instruction" else r
  let r := if !(isSubC "WORKDIR".data content.data) then
      r.add_suggestion "Consider using WORKDIR to set working directory"
    else r
  let r := if !(isSubC "USER".data content.data) then
      r.add_suggestion "Consider adding USER instruction to run as non-root"
    else r
  let p := copyRunScan lines 0 (-1, -1)
  let r := if p.1 > -1 && p.2 > -1 && p.1 > p.2 then
      r.add_suggestion "Consider copying dependency files before RUN for better layer caching"
    else r
  r

/-- Source `validate_generated_code` (lines 203-221): route to the validator
selected by `code_type`, defaulting to the plain YAML syntax check. `parsed`
stands for the outcome of `yaml.safe_load(content)` for the validators that
parse the content. -/
def validate_generated_code (content : String) (parsed : Except String Yaml)
    (code_type : String) : ValidationResult :=
  if code_type == "kubernetes" then validate_kubernetes_manifest parsed
  else if code_type == "terraform" then validate_terraform content
  else if code_type == "docker" then validate_dockerfile content
  else validate_yaml parsed

/-- The backtick character (written via its code point to keep it out of the
source text). -/
def tick : Char := Char.ofNat 96

/-- A markdown code-fence token: three backticks followed by a language tag. -/
def fencePat (sfx : List Char) : List Char := tick :: tick :: tick :: sfx

/-- Fuel-driven engine for Python `s.replace(fence, '')`: scan left to right,
drop each non-overlapping occurrence of `fencePat sfx`, continue after it.
The fuel is always instantiated with the length of the list. -/
def removeTickPatF (sfx : List Char) : Nat → List Char → List Char
  | _, [] => []
  | 0, l => l
  | n + 1, c :: rest =>
    if (fencePat sfx).isPrefixOf (c :: rest) then
      removeTickPatF sfx n (rest.drop (2 + sfx.length))
    else c :: removeTickPatF sfx n rest

/-- Python `s.replace("` ``` `" ++ sfx, '')` on character lists. -/
def removeTickPat (sfx : List Char) (l : List Char) : List Char :=
  removeTickPatF sfx l.length l

/-- Does the list contain three consecutive backticks anywhere? -/
def containsTicks : List Char → Bool
  | c1 :: c2 :: c3 :: rest =>
    (c1 == tick && c2 == tick && c3 == tick) || containsTicks (c2 :: c3 :: rest)
  | _ => false

/-- Line 75 of src/generators/k8s_generator.py:
`content.replace('` ```yaml `','').replace('` ``` `','').strip()`. -/
def stripYamlFences (l : List Char) : List Char :=
  pyStripC (removeTickPat [] (removeTickPat ['y', 'a', 'm', 'l'] l))

/-- String-level fence stripping of the Kubernetes generator. -/
def stripYamlFencesS (s : String) : String := (stripYamlFences s.data).asString

/-- Line 75 of src/generators/terraform_generator.py:
`content.replace('` ```hcl `','').replace('` ```terraform `','').replace('` ``` `','').strip()`. -/
def stripTfFences (l : List Char) : List Char :=
  pyStripC (removeTickPat []
    (removeTickPat ['t', 'e', 'r', 'r', 'a', 'f', 'o', 'r', 'm']
      (removeTickPat ['h', 'c', 'l'] l)))

/-- String-level fence stripping of the Terraform generator. -/
def stripTfFencesS (s : String) : String := (stripTfFences s.data).asString

/-- Regex component `\s*\n` when the next pattern element is a
non-whitespace literal: the only viable backtracking choice consumes the
whole maximal whitespace run, which must end with a newline. -/
def wsEndNl (l : List Char) : Option (List Char) :=
  if (l.takeWhile isPySpace).getLast? == some '\n' then
    some (l.dropWhile isPySpace)
  else none

/-- Regex component `\s*\n` at the end of the pattern: greedy backtracking
consumes whitespace up to and including the last newline of the maximal
whitespace run; fails when the run has no newline. -/
def wsLastNl (l : List Char) : Option (List Char) :=
  let run := l.takeWhile isPySpace
  match run.reverse.findIdx? (fun c => c == '\n') with
  | some k => some ((run.reverse.take k).reverse ++ l.dropWhile isPySpace)
  | none => none

/-- Attempt to match the file-marker regex `---\s*\n#\s*FILE:\s*(\S+)\s*\n`
(line 65 of both generators) at the head of `l`. On success, return the
captured filename token and the remainder of the input after the match.
Each `\s*` is resolved to its unique viable backtracking choice. -/
def matchMarker (l : List Char) : Option (List Char × List Char) :=
  match l with
  | '-' :: '-' :: '-' :: l1 =>
    match wsEndNl l1 with
    | none => none
    | some l2 =>
      match l2 with
      | '#' :: l3 =>
        let l4 := l3.dropWhile isPySpace
        if ("FILE:".data).isPrefixOf l4 then
          let l6 := (l4.drop 5).dropWhile isPySpace
          let tok := l6.takeWhile (fun c => !isPySpace c)
          if tok.isEmpty then none
          else
            match wsLastNl (l6.dropWhile (fun c => !isPySpace c)) with
            | some rest => some (tok, rest)
            | none => none
        else none
      | _ => none
  | _ => none

/-- Fuel-driven engine for `re.split(file_pattern, output)`: scan for the
leftmost marker match, emit the preceding segment and the captured group,
continue after the match. The fuel is always instantiated with the length
of the remaining input, which bounds the number of steps. -/
def splitAuxF : Nat → List Char → List Char → List String
  | 0, acc, l => [(acc.reverse ++ l).asString]
  | n + 1, acc, l =>
    match matchMarker l with
    | some (f, rest) => acc.reverse.asString :: f.asString :: splitAuxF n [] rest
    | none =>
      match l with
      | [] => [acc.reverse.asString]
      | c :: cs => splitAuxF n (c :: acc) cs

/-- `re.split(r'---\s*\n#\s*FILE:\s*(\S+)\s*\n', output)` (line 66):
alternating segments `[prefix, filename1, content1, ..., filenameN, tail]`. -/
def markerSplits (output : String) : List String :=
  splitAuxF output.data.length [] output.data

/-- The loop `for i in range(1, len(splits), 2): if i + 1 < len(splits)`
(lines 69-70): walk the elements after the prefix two at a time, dropping a
lone trailing element. -/
def pairsOf : List String → List (String × String)
  | f :: c :: rest => (f, c) :: pairsOf rest
  | _ => []

/-- The (filename, content) pairs extracted from the marker splits, with the
post-processing of lines 71-75: `filename.strip()` and fence-stripping plus
`strip()` of the content. -/
def markerPairs (output : String) : List (String × String) :=
  (pairsOf (markerSplits output).tail).map
    (fun p => (pyStripS p.1, stripYamlFencesS p.2))

/-- Python `manifests[filename] = content` on an insertion-ordered dict,
modelled on an association list: an existing key keeps its position and gets
the new value, a new key is appended. -/
def insertLWW (m : List (String × String)) (k v : String) : List (String × String) :=
  if m.any (fun p => p.1 == k) then
    m.map (fun p => if p.1 == k then (k, v) else p)
  else m ++ [(k, v)]

/-- Run a sequence of dict assignments. -/
def insertAll (m : List (String × String)) (ps : List (String × String)) :
    List (String × String) :=
  ps.foldl (fun acc p => insertLWW acc p.1 p.2) m

/-- Python `\w` word character (ASCII part): letters, digits, underscore. -/
def wordChar (c : Char) : Bool := c.isAlphanum || c == '_'

/-- Attempt to match `kind:\s*(\w+)` at the head of `l`, returning the
captured group. -/
def kindAt (l : List Char) : Option (List Char) :=
  if ("kind:".data).isPrefixOf l then
    let tok := ((l.drop 5).dropWhile isPySpace).takeWhile wordChar
    if tok.isEmpty then none else some tok
  else none

/-- `re.search(r'kind:\s*(\w+)', doc)` (line 90): leftmost match. -/
def kindSearch : List Char → Option (List Char)
  | [] => none
  | c :: rest =>
    match kindAt (c :: rest) with
    | some k => some k
    | none => kindSearch rest

/-- Python `output.split('---')` (line 81): split on every non-overlapping
occurrence of three hyphens, scanning left to right. -/
def pySplit3Dash : List Char → List (List Char)
  | '-' :: '-' :: '-' :: rest => [] :: pySplit3Dash rest
  | c :: rest =>
    match pySplit3Dash rest with
    | h :: t => (c :: h) :: t
    | [] => [[c]]
  | [] => [[]]

/-- `docs = [doc.strip() for doc in output.split('---') if doc.strip()]`
(line 81): the stripped non-empty fragments, in order. -/
def fallbackDocs (output : String) : List (List Char) :=
  ((pySplit3Dash output.data).map pyStripC).filter (fun d => !d.isEmpty)

/-- Python `str.lower()` (ASCII part, as used on `\w+` captures). -/
def lowerS (l : List Char) : List Char := l.map Char.toLower

/-- Filename derived for the fragment at 0-based position `i` of the
fallback loop (lines 83-98): `<lowercased kind>.yaml` when the kind regex
matches, `manifest-<i+1>.yaml` otherwise. -/
def fallbackName (i : Nat) (d : List Char) : String :=
  match kindSearch d with
  | some k => (lowerS k).asString ++ ".yaml"
  | none => "manifest-" ++ toString (i + 1) ++ ".yaml"

/-- The (filename, content) pairs produced by the fallback loop
(`for i, doc in enumerate(docs)`), with fence stripping applied to each
fragment before the kind search. -/
def fallbackPairsAux : Nat → List (List Char) → List (String × String)
  | _, [] => []
  | i, d :: rest =>
    (fallbackName i (stripYamlFences d), (stripYamlFences d).asString) ::
      fallbackPairsAux (i + 1) rest

/-- All fallback pairs of `output`, starting at position 0. -/
def fallbackPairs (output : String) : List (String × String) :=
  fallbackPairsAux 0 (fallbackDocs output)

/-- Source `K8sGenerator._parse_output` (src/generators/k8s_generator.py,
lines 52-100): build the dict from the marker pairs; when it stays empty,
fall back to the document segmenter. -/
def k8s_parse_output (output : String) : List (String × String) :=
  let m := insertAll [] (markerPairs output)
  if m.isEmpty then insertAll [] (fallbackPairs output) else m

/-- Condition under which the Deployment branch adds the securityContext
suggestion, for a manifest whose `spec` value is the mapping `sm` (spec-side
helper): `spec.template` exists, supports `.get`, and its `spec` value
(defaulting to the empty mapping) does not contain `securityContext`. -/
def securitySugg (sm : List (String × Yaml)) : Bool :=
  match List.lookup "template" sm with
  | some tv =>
    match pyGet tv "spec" (Yaml.map []) with
    | .ok ts =>
      match pyContains ts "securityContext" with
      | .ok b => !b
      | .error _ => false
    | .error _ => false
  | none => false

/-- Does an error message carry the generic catch-all prefix
`"Validation error: "`? (spec-side helper for counting generic entries). -/
def startsGeneric (e : String) : Bool := ("Validation error: ".data).isPrefixOf e.data

/-- Index of the first element satisfying `p` (spec-side helper). -/
def firstIdxP {α : Type} (p : α → Bool) : List α → Option Nat
  | [] => none
  | a :: l => if p a then some 0 else (firstIdxP p l).map (fun j => j + 1)

/-- Index of the last element satisfying `p` (spec-side helper). -/
def lastIdxP {α : Type} (p : α → Bool) : List α → Option Nat
  | [] => none
  | a :: l =>
    match lastIdxP p l with
    | some j => some (j + 1)
    | none => if p a then some 0 else none

theorem foldVOps_inv : ∀ (ops : List VOp) (r : ValidationResult),
    (r.valid = true ↔ r.errors = []) →
    ((ops.foldl applyVOp r).valid = true ↔ (ops.foldl applyVOp r).errors = []) := by
  intro ops
  induction ops with
  | nil => exact fun r h => h
  | cons op t ih =>
    intro r h
    simp only [List.foldl_cons]
    apply ih
    cases op with
    | err m => simp [applyVOp, ValidationResult.add_error]
    | warn m => simpa [applyVOp, ValidationResult.add_warning] using h
    | sugg m => simpa [applyVOp, ValidationResult.add_suggestion] using h

/-- C5: every `ValidationResult` reachable from a fresh result by `add_error`,
`add_warning` and `add_suggestion` calls has `valid = true` iff its error list
is empty; `add_error` forces `valid = false` and appends its message, while
`add_warning` and `add_suggestion` leave `valid` unchanged and only append. -/
theorem claim_C5 :
    (∀ ops : List VOp, ((runVOps ops).valid = true ↔ (runVOps ops).errors = [])) ∧
    (∀ (r : ValidationResult) (m : String),
      (r.add_error m).valid = false ∧ (r.add_error m).errors = r.errors ++ [m]) ∧
    (∀ (r : ValidationResult) (m : String),
      (r.add_warning m).valid = r.valid ∧ (r.add_warning m).warnings = r.warnings ++ [m] ∧
      (r.add_warning m).errors = r.errors) ∧
    (∀ (r : ValidationResult) (m : String),
      (r.add_suggestion m).valid = r.valid ∧
      (r.add_suggestion m).suggestions = r.suggestions ++ [m] ∧
      (r.add_suggestion m).errors = r.errors) := by
  refine ⟨fun ops => ?_, fun r m => ⟨rfl, rfl⟩, fun r m => ⟨rfl, rfl, rfl⟩,
    fun r m => ⟨rfl, rfl, rfl⟩⟩
  exact foldVOps_inv ops ValidationResult.empty (by simp [ValidationResult.empty])

/-- C9: an empty or whitespace-only Terraform input yields `valid = false`
with exactly the single "Empty Terraform file" error and no warnings or
suggestions (the validator returns before the brace, provider and terraform
block checks). -/
theorem claim_C9 (content : String) (h : pyStripS content = "") :
    validate_terraform content =
      { valid := false, errors := ["Empty Terraform file"], warnings := [],
        suggestions := [] } := by
  have hd : pyStripC content.data = [] := by
    have := congrArg String.data h
    simpa [pyStripS, List.asString] using this
  simp [validate_terraform, hd, ValidationResult.empty, ValidationResult.add_error]

/-- Witness for C9 at the whitespace-only input `"  \n\t "`. -/
theorem claim_C9_witness :
    pyStripS "  \n\t " = "" ∧
    validate_terraform "  \n\t " =
      { valid := false, errors := ["Empty Terraform file"], warnings := [],
        suggestions := [] } :=
  ⟨by decide, claim_C9 "  \n\t " (by decide)⟩

/-- C10: for a `code_type` outside kubernetes/terraform/docker, the
dispatcher returns exactly the plain YAML syntax check: at most one error and
never any warnings or suggestions. -/
theorem claim_C10 (content : String) (parsed : Except String Yaml) (ct : String)
    (h : ct ≠ "kubernetes" ∧ ct ≠ "terraform" ∧ ct ≠ "docker") :
    validate_generated_code content parsed ct = validate_yaml parsed ∧
    (validate_generated_code content parsed ct).warnings = [] ∧
    (validate_generated_code content parsed ct).suggestions = [] ∧
    (validate_generated_code content parsed ct).errors.length ≤ 1 := by
  obtain ⟨h1, h2, h3⟩ := h
  have e : validate_generated_code content parsed ct = validate_yaml parsed := by
    simp [validate_generated_code, h1, h2, h3]
  refine ⟨e, ?_, ?_, ?_⟩ <;> rw [e] <;>
    cases parsed <;>
    simp [validate_yaml, ValidationResult.empty, ValidationResult.add_error]

/-- Witness for C10 at `code_type = "cicd"` with a failed parse. -/
theorem claim_C10_witness :
    ("cicd" ≠ "kubernetes" ∧ "cicd" ≠ "terraform" ∧ "cicd" ≠ "docker") ∧
    (validate_generated_code "" (.error "bad") "cicd" = validate_yaml (.error "bad") ∧
     (validate_generated_code "" (.error "bad") "cicd").warnings = [] ∧
     (validate_generated_code "" (.error "bad") "cicd").suggestions = [] ∧
     (validate_generated_code "" (.error "bad") "cicd").errors.length ≤ 1) :=
  ⟨by decide, claim_C10 "" (.error "bad") "cicd" (by decide)⟩

theorem isPrefixOf_cons_cons (a b : Char) (as bs : List Char) :
    (a :: as).isPrefixOf (b :: bs) = (a == b && as.isPrefixOf bs) := rfl

theorem copy_run_disjoint (d : List Char) :
    ("COPY".data).isPrefixOf d = true → ("RUN".data).isPrefixOf d = false := by
  intro hc
  cases d with
  | nil => exact absurd hc (by decide)
  | cons c cs =>
    have e : ("COPY".data).isPrefixOf (c :: cs) = (('C' == c) && ("OPY".data).isPrefixOf cs) := rfl
    rw [e] at hc
    rw [Bool.and_eq_true] at hc
    have h1 : 'C' = c := beq_iff_eq.mp hc.1
    have e2 : ("RUN".data).isPrefixOf (c :: cs) = (('R' == c) && ("UN".data).isPrefixOf cs) := rfl
    rw [e2, ← h1]
    simp

theorem isCopy_isRun (l : List Char) : isCopyLine l = true → isRunLine l = false :=
  fun h => copy_run_disjoint (pyStripC l) h

theorem firstIdxP_congr {α : Type} (p q : α → Bool) (h : ∀ a, p a = q a) :
    ∀ l : List α, firstIdxP p l = firstIdxP q l := by
  intro l
  induction l with
  | nil => rfl
  | cons a t ih => simp [firstIdxP, h a, ih]

theorem copyRunScan_eq (lines : List (List Char)) :
    ∀ i ci ri : Int, 0 ≤ i →
    copyRunScan lines i (ci, ri) =
      ((lastIdxP isCopyLine lines).elim ci (fun j => i + (j : Int)),
       if ri = -1 then
         (firstIdxP (fun l => !isCopyLine l && isRunLine l) lines).elim (-1)
           (fun j => i + (j : Int))
       else ri) := by
  induction lines with
  | nil =>
    intro i ci ri h
    simp only [copyRunScan, lastIdxP, firstIdxP, Option.elim]
    refine Prod.ext rfl ?_
    split <;> omega
  | cons line rest ih =>
    intro i ci ri h
    have hi1 : (0 : Int) ≤ i + 1 := by omega
    have hii : ¬ (i = -1) := by omega
    show (if isCopyLine line then copyRunScan rest (i + 1) (i, ri)
          else if isRunLine line && ri == -1 then copyRunScan rest (i + 1) (ci, i)
          else copyRunScan rest (i + 1) (ci, ri)) = _
    by_cases hc : isCopyLine line
    · rw [if_pos hc, ih (i + 1) i ri hi1]
      have hq : (!isCopyLine line && isRunLine line) = false := by simp [hc]
      refine Prod.ext ?_ ?_
      · rcases hL : lastIdxP isCopyLine rest with _ | j <;>
          simp [lastIdxP, hL, hc, Option.elim] <;> try omega
      · by_cases hri : ri = -1
        · rcases hF : firstIdxP (fun l => !isCopyLine l && isRunLine l) rest with _ | k <;>
            simp [firstIdxP, hF, hq, hri, Option.elim] <;> try omega
        · simp only [hri, if_false]
    · rw [if_neg hc]
      have hcb : isCopyLine line = false := by simpa using hc
      by_cases hr : (isRunLine line && ri == -1) = true
      · rw [if_pos hr, ih (i + 1) ci i hi1]
        rw [Bool.and_eq_true] at hr
        have hri : ri = -1 := by simpa using hr.2
        have hq : (!isCopyLine line && isRunLine line) = true := by
          simp [hcb, hr.1]
        refine Prod.ext ?_ ?_
        · rcases hL : lastIdxP isCopyLine rest with _ | j <;>
            simp [lastIdxP, hL, hcb, Option.elim] <;> try omega
        · simp [hii, hri, firstIdxP, hq, Option.elim]
      · rw [if_neg hr, ih (i + 1) ci ri hi1]
        refine Prod.ext ?_ ?_
        · rcases hL : lastIdxP isCopyLine rest with _ | j <;>
            simp [lastIdxP, hL, hcb, Option.elim] <;> try omega
        · by_cases hri : ri = -1
          · have hrl : isRunLine line = false := by
              rcases hb : isRunLine line with _ | _
              · rfl
              · exact absurd (by simp [hb, hri] : (isRunLine line && ri == -1) = true) hr
            have hq : (!isCopyLine line && isRunLine line) = false := by
              simp [hcb, hrl]
            rcases hF : firstIdxP (fun l => !isCopyLine l && isRunLine l) rest with _ | k <;>
              simp [firstIdxP, hF, hq, hri, Option.elim] <;> try omega
          · simp only [hri, if_false]

/-- C8: the layer-caching suggestion is emitted iff some line's trimmed form
starts with COPY, some line's trimmed form starts with RUN, and the index of
the last such COPY line exceeds the index of the first such RUN line; in
particular `["RUN make", "COPY . ."]` yields the suggestion (and the
base-image error), while `["FROM alpine", "COPY . .", "RUN make"]` does
not. -/
theorem claim_C8 :
    (∀ content : String,
      "Consider copying dependency files before RUN for better layer caching" ∈
          (validate_dockerfile content).suggestions ↔
        ∃ ci ri : Nat,
          lastIdxP isCopyLine (splitNlC (pyStripC content.data)) = some ci ∧
          firstIdxP isRunLine (splitNlC (pyStripC content.data)) = some ri ∧ ri < ci) ∧
    "Consider copying dependency files before RUN for better layer caching" ∈
      (validate_dockerfile "RUN make\nCOPY . .").suggestions ∧
    "Dockerfile must start with FROM instruction" ∈
      (validate_dockerfile "RUN make\nCOPY . .").errors ∧
    "Consider copying dependency files before RUN for better layer caching" ∉
      (validate_dockerfile "FROM alpine\nCOPY . .\nRUN make").suggestions := by
  refine ⟨fun content => ?_, by decide, by decide, by decide⟩
  have hq : ∀ l, (!isCopyLine l && isRunLine l) = isRunLine l := by
    intro l
    rcases hcl : isCopyLine l with _ | _
    · simp
    · simp [isCopy_isRun l hcl]
  have hqf : firstIdxP (fun l => !isCopyLine l && isRunLine l)
        (splitNlC (pyStripC content.data)) =
      firstIdxP isRunLine (splitNlC (pyStripC content.data)) :=
    firstIdxP_congr _ _ hq _
  have hscan := copyRunScan_eq (splitNlC (pyStripC content.data)) 0 (-1) (-1) (le_refl 0)
  rw [hqf] at hscan
  have d1 : ¬("Consider copying dependency files before RUN for better layer caching" =
      "Consider using WORKDIR to set working directory") := by decide
  have d2 : ¬("Consider copying dependency files before RUN for better layer caching" =
      "Consider adding USER instruction to run as non-root") := by decide
  rcases hL : lastIdxP isCopyLine (splitNlC (pyStripC content.data)) with _ | ci <;>
  rcases hF : firstIdxP isRunLine (splitNlC (pyStripC content.data)) with _ | ri <;>
  rw [hL, hF] at hscan <;>
  by_cases b2 : isSubC "WORKDIR".data content.data <;>
  by_cases b3 : isSubC "USER".data content.data <;>
  by_cases b1 : (splitNlC (pyStripC content.data)).any
      (fun l => ("FROM".data).isPrefixOf (pyStripC l)) <;>
    simp [validate_dockerfile, hscan, hL, hF, b1, b2, b3, d1, d2,
      ValidationResult.add_error, ValidationResult.add_suggestion,
      ValidationResult.empty, Option.elim] <;>
    (try omega) <;>
    (try (split <;> simp_all <;> try omega))

theorem containsTicks_nil : containsTicks [] = false := rfl

theorem containsTicks_one (c : Char) : containsTicks [c] = false := rfl

theorem containsTicks_two (c d : Char) : containsTicks [c, d] = false := rfl

theorem containsTicks_cons3 (c1 c2 c3 : Char) (r : List Char) :
    containsTicks (c1 :: c2 :: c3 :: r) =
      ((c1 == tick && c2 == tick && c3 == tick) || containsTicks (c2 :: c3 :: r)) := rfl

theorem rtpF_nil (sfx : List Char) (n : Nat) : removeTickPatF sfx n [] = [] := by
  cases n <;> rfl

theorem rtpF_zero (sfx l : List Char) : removeTickPatF sfx 0 l = l := by
  cases l <;> rfl

theorem rtpF_succ (sfx : List Char) (n : Nat) (c : Char) (rest : List Char) :
    removeTickPatF sfx (n + 1) (c :: rest) =
      if (fencePat sfx).isPrefixOf (c :: rest) then
        removeTickPatF sfx n (rest.drop (2 + sfx.length))
      else c :: removeTickPatF sfx n rest := rfl

theorem fence_prefix_ticks (sfx l : List Char) :
    (fencePat sfx).isPrefixOf l = true → containsTicks l = true := by
  intro h
  match l with
  | [] => exact absurd h (by simp [fencePat, List.isPrefixOf])
  | [c1] => exact absurd h (by simp [fencePat, List.isPrefixOf])
  | [c1, c2] => exact absurd h (by simp [fencePat, List.isPrefixOf])
  | c1 :: c2 :: c3 :: r =>
    have e : (fencePat sfx).isPrefixOf (c1 :: c2 :: c3 :: r) =
        ((tick == c1) && ((tick == c2) && ((tick == c3) && sfx.isPrefixOf r))) := rfl
    rw [e] at h
    simp only [Bool.and_eq_true, beq_iff_eq] at h
    rw [containsTicks_cons3, ← h.1, ← h.2.1, ← h.2.2.1]
    simp

theorem containsTicks_tail (c : Char) (l : List Char)
    (h : containsTicks (c :: l) = false) : containsTicks l = false := by
  match l with
  | [] => rfl
  | [c2] => rfl
  | c2 :: c3 :: r =>
    rw [containsTicks_cons3] at h
    exact (Bool.or_eq_false_iff.mp h).2

theorem containsTicks_cons_of (c : Char) (l : List Char)
    (h : containsTicks l = true) : containsTicks (c :: l) = true := by
  match l with
  | [] => exact absurd h (by simp [containsTicks_nil])
  | [c2] => exact absurd h (by simp [containsTicks_one])
  | c2 :: c3 :: r => rw [containsTicks_cons3, h]; simp

theorem removeTickPatF_noTicks (sfx : List Char) :
    ∀ (n : Nat) (l : List Char), containsTicks l = false → removeTickPatF sfx n l = l := by
  intro n
  induction n with
  | zero => intro l h; exact rtpF_zero sfx l
  | succ n ih =>
    intro l h
    match l with
    | [] => exact rtpF_nil sfx (n + 1)
    | c :: rest =>
      rw [rtpF_succ]
      have hp : (fencePat sfx).isPrefixOf (c :: rest) = false := by
        rcases hb : (fencePat sfx).isPrefixOf (c :: rest) with _ | _
        · rfl
        · exact absurd (fence_prefix_ticks sfx _ hb) (by simp [h])
      rw [hp]
      simp only [Bool.false_eq_true, if_false]
      rw [ih rest (containsTicks_tail c rest h)]

theorem nil_isPrefixOf_any (l : List Char) : ([] : List Char).isPrefixOf l = true := by
  cases l <;> rfl

theorem single_prefix_false (a : Char) (X : List Char) (h : X.head? ≠ some a) :
    [a].isPrefixOf X = false := by
  match X with
  | [] => rfl
  | x :: xs =>
    have e : [a].isPrefixOf (x :: xs) = ((a == x) && ([] : List Char).isPrefixOf xs) := rfl
    rw [e, nil_isPrefixOf_any]
    simp only [Bool.and_true]
    simp only [List.head?] at h
    have : ¬ a = x := fun hax => h (by rw [hax])
    simp [this]

theorem head_of_single_pfx (a : Char) (X : List Char)
    (h : [a].isPrefixOf X = false) : X.head? ≠ some a := by
  match X with
  | [] => simp
  | x :: xs =>
    have e : [a].isPrefixOf (x :: xs) = ((a == x) && ([] : List Char).isPrefixOf xs) := rfl
    rw [e, nil_isPrefixOf_any] at h
    simp only [Bool.and_true] at h
    simp only [List.head?, ne_eq, Option.some.injEq]
    intro hxa
    rw [hxa] at h
    simp at h

theorem rtpF_ticks_head (n : Nat) (l : List Char) (h : l.head? ≠ some tick) :
    (removeTickPatF [] n l).head? ≠ some tick := by
  match n, l with
  | _, [] => rw [rtpF_nil]; simp
  | 0, l => rw [rtpF_zero]; exact h
  | n + 1, c :: rest =>
    rw [rtpF_succ]
    have hc : ¬ tick = c := by
      simp only [List.head?, ne_eq, Option.some.injEq] at h
      exact fun hcompletion => h hcompletion.symm
    have hp : (fencePat []).isPrefixOf (c :: rest) = false := by
      have e : (fencePat []).isPrefixOf (c :: rest) =
          ((tick == c) && ([tick, tick].isPrefixOf rest)) := rfl
      rw [e]
      simp [hc]
    rw [hp]
    simp only [Bool.false_eq_true, if_false, List.head?, ne_eq, Option.some.injEq]
    exact fun hh => hc hh.symm

theorem rtpF_ticks_head2 (n : Nat) (l : List Char)
    (h : [tick, tick].isPrefixOf l = false) :
    [tick, tick].isPrefixOf (removeTickPatF [] n l) = false := by
  match n, l with
  | _, [] => rw [rtpF_nil]; rfl
  | 0, l => rw [rtpF_zero]; exact h
  | n + 1, c :: rest =>
    rw [rtpF_succ]
    by_cases hct : c = tick
    · subst hct
      have h1 : [tick].isPrefixOf rest = false := by
        have e : [tick, tick].isPrefixOf (tick :: rest) =
            ((tick == tick) && ([tick].isPrefixOf rest)) := rfl
        rw [e] at h
        simpa using h
      have hp : (fencePat []).isPrefixOf (tick :: rest) = false := by
        have e : (fencePat []).isPrefixOf (tick :: rest) =
            ((tick == tick) && ([tick, tick].isPrefixOf rest)) := rfl
        rw [e]
        have h2 : [tick, tick].isPrefixOf rest = false := by
          match rest with
          | [] => rfl
          | r0 :: rs =>
            have e2 : [tick, tick].isPrefixOf (r0 :: rs) =
                ((tick == r0) && ([tick].isPrefixOf rs)) := rfl
            rw [e2]
            have : ¬ tick = r0 := by
              have := head_of_single_pfx tick (r0 :: rs) h1
              simp only [List.head?, ne_eq, Option.some.injEq] at this
              exact fun hh => this hh.symm
            simp [this]
        simp [h2]
      rw [hp]
      simp only [Bool.false_eq_true, if_false]
      have e3 : [tick, tick].isPrefixOf (tick :: removeTickPatF [] n rest) =
          ((tick == tick) && ([tick].isPrefixOf (removeTickPatF [] n rest))) := rfl
      rw [e3]
      have := rtpF_ticks_head n rest (head_of_single_pfx tick rest h1)
      simp [single_prefix_false tick _ this]
    · have hp : (fencePat []).isPrefixOf (c :: rest) = false := by
        have e : (fencePat []).isPrefixOf (c :: rest) =
            ((tick == c) && ([tick, tick].isPrefixOf rest)) := rfl
        rw [e]
        have : ¬ tick = c := fun hh => hct hh.symm
        simp [this]
      rw [hp]
      simp only [Bool.false_eq_true, if_false]
      have e4 : [tick, tick].isPrefixOf (c :: removeTickPatF [] n rest) =
          ((tick == c) && ([tick].isPrefixOf (removeTickPatF [] n rest))) := rfl
      rw [e4]
      have : ¬ tick = c := fun hh => hct hh.symm
      simp [this]

theorem rtpF_empty_noTicks :
    ∀ (n : Nat) (l : List Char), l.length ≤ n →
      containsTicks (removeTickPatF [] n l) = false := by
  intro n
  induction n with
  | zero =>
    intro l hl
    have : l = [] := List.length_eq_zero.mp (Nat.le_zero.mp hl)
    subst this
    rw [rtpF_zero]
    rfl
  | succ n ih =>
    intro l hl
    match l with
    | [] => rw [rtpF_nil]; rfl
    | c :: rest =>
      rw [rtpF_succ]
      by_cases hp : (fencePat []).isPrefixOf (c :: rest) = true
      · rw [if_pos hp]
        refine ih _ ?_
        have : (rest.drop (2 + ([] : List Char).length)).length ≤ rest.length :=
          by simpa using List.length_drop_le 2 rest
        have hr : rest.length ≤ n := by
          simpa using Nat.le_of_succ_le_succ hl
        omega
      · rw [if_neg hp]
        rw [Bool.not_eq_true] at hp
        have hpb : (fencePat []).isPrefixOf (c :: rest) = false := hp
        have hX : containsTicks (removeTickPatF [] n rest) = false := by
          refine ih rest ?_
          simpa using Nat.le_of_succ_le_succ hl
        match hXe : removeTickPatF [] n rest with
        | [] => rfl
        | [x] => rfl
        | x1 :: x2 :: xr =>
          rw [containsTicks_cons3]
          rw [hXe] at hX
          rw [hX]
          simp only [Bool.or_false]
          by_cases hct : c = tick
          · subst hct
            have h1 : [tick, tick].isPrefixOf rest = false := by
              have e : (fencePat []).isPrefixOf (tick :: rest) =
                  ((tick == tick) && ([tick, tick].isPrefixOf rest)) := rfl
              rw [e] at hpb
              simpa using hpb
            have h2 : [tick, tick].isPrefixOf (removeTickPatF [] n rest) = false :=
              rtpF_ticks_head2 n rest h1
            rw [hXe] at h2
            have e2 : [tick, tick].isPrefixOf (x1 :: x2 :: xr) =
                ((tick == x1) && ((tick == x2) && ([] : List Char).isPrefixOf xr)) := rfl
            rw [e2, nil_isPrefixOf_any] at h2
            simp only [Bool.and_true] at h2
            simp only [Bool.and_eq_false_iff] at h2
            rcases h2 with h2 | h2
            · have hx : (x1 == tick) = false := by
                simp only [beq_eq_false_iff_ne, ne_eq] at h2 ⊢
                exact fun hh => h2 hh.symm
              simp [hx]
            · have hx : (x2 == tick) = false := by
                simp only [beq_eq_false_iff_ne, ne_eq] at h2 ⊢
                exact fun hh => h2 hh.symm
              simp [hx]
          · have hx : (c == tick) = false := by
              simp only [beq_eq_false_iff_ne, ne_eq]
              exact hct
            simp [hx]

theorem containsTicks_append_right :
    ∀ l1 l2 : List Char, containsTicks l2 = true → containsTicks (l1 ++ l2) = true := by
  intro l1
  induction l1 with
  | nil => intro l2 h; simpa using h
  | cons c t ih => intro l2 h; exact containsTicks_cons_of c (t ++ l2) (ih l2 h)

theorem containsTicks_append_left :
    ∀ m r : List Char, containsTicks m = true → containsTicks (m ++ r) = true := by
  intro m
  induction m with
  | nil => intro r h; exact absurd h (by simp [containsTicks_nil])
  | cons c m' ih =>
    intro r h
    match m', h with
    | [], h => exact absurd h (by simp [containsTicks_one])
    | [c2], h => exact absurd h (by simp [containsTicks_two])
    | c2 :: c3 :: t, h =>
      rw [containsTicks_cons3, Bool.or_eq_true] at h
      rcases h with h | h
      · show containsTicks (c :: c2 :: c3 :: (t ++ r)) = true
        rw [containsTicks_cons3, h]
        simp
      · exact containsTicks_cons_of c _ (ih r h)

theorem rev_split (p : Char → Bool) (x : List Char) :
    (x.reverse.dropWhile p).reverse ++ (x.reverse.takeWhile p).reverse = x := by
  have h3 := List.takeWhile_append_dropWhile p x.reverse
  have h4 := congrArg List.reverse h3
  rw [List.reverse_append, List.reverse_reverse] at h4
  exact h4

theorem pyStripC_decomp (l : List Char) :
    ∃ t s, l = t ++ pyStripC l ++ s := by
  refine ⟨l.takeWhile isPySpace, ((pyLStrip l).reverse.takeWhile isPySpace).reverse, ?_⟩
  have h1 : l.takeWhile isPySpace ++ pyLStrip l = l :=
    List.takeWhile_append_dropWhile isPySpace l
  have h2 : pyStripC l ++ ((pyLStrip l).reverse.takeWhile isPySpace).reverse =
      pyLStrip l := rev_split isPySpace (pyLStrip l)
  rw [List.append_assoc, h2, h1]

theorem pyStripC_noTicks (l : List Char) (h : containsTicks l = false) :
    containsTicks (pyStripC l) = false := by
  rcases hb : containsTicks (pyStripC l) with _ | _
  · rfl
  · exfalso
    obtain ⟨t, s, hd⟩ := pyStripC_decomp l
    have : containsTicks l = true := by
      rw [hd, List.append_assoc]
      exact containsTicks_append_right t _ (containsTicks_append_left _ s hb)
    rw [this] at h
    exact Bool.true_eq_false.mp h

theorem head_dropWhile_false (p : Char → Bool) :
    ∀ (l : List Char) (c : Char), (l.dropWhile p).head? = some c → p c = false := by
  intro l
  induction l with
  | nil => intro c h; simp [List.dropWhile] at h
  | cons a t ih =>
    intro c h
    rw [List.dropWhile_cons] at h
    by_cases hp : p a = true
    · rw [if_pos hp] at h
      exact ih c h
    · rw [if_neg hp] at h
      simp only [List.head?, Option.some.injEq] at h
      subst h
      simpa using hp

theorem dropWhile_of_head (p : Char → Bool) (l : List Char)
    (h : ∀ c, l.head? = some c → p c = false) : l.dropWhile p = l := by
  match l with
  | [] => rfl
  | c :: t =>
    rw [List.dropWhile_cons, if_neg]
    rw [h c rfl]
    simp

theorem pyStripC_idem (l : List Char) : pyStripC (pyStripC l) = pyStripC l := by
  have hA : ∀ c, (pyLStrip l).head? = some c → isPySpace c = false :=
    fun c hc => head_dropWhile_false isPySpace l c hc
  have hpre : pyLStrip l =
      pyStripC l ++ ((pyLStrip l).reverse.takeWhile isPySpace).reverse :=
    (rev_split isPySpace (pyLStrip l)).symm
  have hB : ∀ c, (pyStripC l).head? = some c → isPySpace c = false := by
    intro c hc
    match he : pyStripC l, hc with
    | x :: xs, hc =>
      have hx : (pyLStrip l).head? = some x := by
        rw [hpre, he]
        rfl
      simp only [List.head?, Option.some.injEq] at hc
      rw [← hc]
      exact hA x hx
  have c1 : pyLStrip (pyStripC l) = pyStripC l := dropWhile_of_head isPySpace _ hB
  have c2 : (pyStripC l).reverse.dropWhile isPySpace = (pyStripC l).reverse := by
    refine dropWhile_of_head isPySpace _ ?_
    intro c hc
    have hrv : (pyStripC l).reverse = (pyLStrip l).reverse.dropWhile isPySpace := by
      simp [pyStripC]
    rw [hrv] at hc
    exact head_dropWhile_false isPySpace (pyLStrip l).reverse c hc
  show ((pyLStrip (pyStripC l)).reverse.dropWhile isPySpace).reverse = pyStripC l
  rw [c1, c2, List.reverse_reverse]

theorem stripYamlFences_idem (l : List Char) :
    stripYamlFences (stripYamlFences l) = stripYamlFences l := by
  have hx : containsTicks (removeTickPat [] (removeTickPat ['y', 'a', 'm', 'l'] l)) = false :=
    rtpF_empty_noTicks _ _ le_rfl
  have hy : containsTicks (stripYamlFences l) = false := pyStripC_noTicks _ hx
  show pyStripC (removeTickPat []
      (removeTickPat ['y', 'a', 'm', 'l'] (stripYamlFences l))) = stripYamlFences l
  rw [show removeTickPat ['y', 'a', 'm', 'l'] (stripYamlFences l) = stripYamlFences l from
    removeTickPatF_noTicks _ _ _ hy]
  rw [show removeTickPat [] (stripYamlFences l) = stripYamlFences l from
    removeTickPatF_noTicks _ _ _ hy]
  exact pyStripC_idem _

theorem stripTfFences_idem (l : List Char) :
    stripTfFences (stripTfFences l) = stripTfFences l := by
  have hx : containsTicks (removeTickPat []
      (removeTickPat ['t', 'e', 'r', 'r', 'a', 'f', 'o', 'r', 'm']
        (removeTickPat ['h', 'c', 'l'] l))) = false :=
    rtpF_empty_noTicks _ _ le_rfl
  have hy : containsTicks (stripTfFences l) = false := pyStripC_noTicks _ hx
  show pyStripC (removeTickPat []
      (removeTickPat ['t', 'e', 'r', 'r', 'a', 'f', 'o', 'r', 'm']
        (removeTickPat ['h', 'c', 'l'] (stripTfFences l)))) = stripTfFences l
  rw [show removeTickPat ['h', 'c', 'l'] (stripTfFences l) = stripTfFences l from
    removeTickPatF_noTicks _ _ _ hy]
  rw [show removeTickPat ['t', 'e', 'r', 'r', 'a', 'f', 'o', 'r', 'm'] (stripTfFences l) =
      stripTfFences l from removeTickPatF_noTicks _ _ _ hy]
  rw [show removeTickPat [] (stripTfFences l) = stripTfFences l from
    removeTickPatF_noTicks _ _ _ hy]
  exact pyStripC_idem _

/-- C6: the code-fence stripping step of both generators (remove the
language-tagged open fences and the bare fence, then trim whitespace) is
idempotent: applying it twice equals applying it once, for every string. -/
theorem claim_C6 :
    (∀ s : String, stripYamlFencesS (stripYamlFencesS s) = stripYamlFencesS s) ∧
    (∀ s : String, stripTfFencesS (stripTfFencesS s) = stripTfFencesS s) := by
  have hdata : ∀ x : List Char, (List.asString x).data = x := fun _ => rfl
  refine ⟨fun s => ?_, fun s => ?_⟩
  · show (stripYamlFences ((stripYamlFences s.data).asString).data).asString =
      (stripYamlFences s.data).asString
    rw [hdata]
    exact congrArg List.asString (stripYamlFences_idem s.data)
  · show (stripTfFences ((stripTfFences s.data).asString).data).asString =
      (stripTfFences s.data).asString
    rw [hdata]
    exact congrArg List.asString (stripTfFences_idem s.data)

theorem beq_flip_false (a b : String) (h : (a == b) = false) : (b == a) = false := by
  simp only [beq_eq_false_iff_ne, ne_eq] at h ⊢
  exact fun hh => h hh.symm

theorem lookup_of_any_false (k : String) :
    ∀ m : List (String × String), m.any (fun p => p.1 == k) = false →
      List.lookup k m = none := by
  intro m
  induction m with
  | nil => intro _; rfl
  | cons a t ih =>
    intro h
    obtain ⟨k0, v0⟩ := a
    simp only [List.any_cons, Bool.or_eq_false_iff] at h
    have hk : (k == k0) = false := beq_flip_false k0 k h.1
    simp only [List.lookup, hk]
    exact ih h.2

theorem lookup_map_update (k v : String) :
    ∀ m : List (String × String), m.any (fun p => p.1 == k) = true →
      List.lookup k (m.map (fun p => if p.1 == k then (k, v) else p)) = some v := by
  intro m
  induction m with
  | nil => intro h; simp at h
  | cons a t ih =>
    intro h
    obtain ⟨k0, v0⟩ := a
    rw [List.map_cons]
    by_cases hk : (k0 == k) = true
    · have e1 : (if ((k0, v0).1 == k) = true then (k, v) else (k0, v0)) = (k, v) := by
        simp [hk]
      rw [e1]
      simp [List.lookup]
    · have hkf : (k0 == k) = false := by simpa using hk
      have e1 : (if ((k0, v0).1 == k) = true then (k, v) else (k0, v0)) = (k0, v0) := by
        simp [hkf]
      rw [e1]
      have hk2 : (k == k0) = false := beq_flip_false k0 k hkf
      simp only [List.lookup, hk2]
      refine ih ?_
      simp only [List.any_cons, Bool.or_eq_true] at h
      rcases h with h | h
      · simp only [hkf] at h
        exact absurd h (by decide)
      · exact h

theorem lookup_map_update_other (k k' v : String) (hk : ¬ k' = k) :
    ∀ m : List (String × String),
      List.lookup k' (m.map (fun p => if p.1 == k then (k, v) else p)) =
        List.lookup k' m := by
  intro m
  induction m with
  | nil => rfl
  | cons a t ih =>
    obtain ⟨k0, v0⟩ := a
    rw [List.map_cons]
    by_cases hk0 : (k0 == k) = true
    · have e1 : (if ((k0, v0).1 == k) = true then (k, v) else (k0, v0)) = (k, v) := by
        simp [hk0]
      rw [e1]
      have hq : (k' == k) = false := by simp [hk]
      have hq0 : (k' == k0) = false := by
        have hke : k0 = k := by simpa using hk0
        rw [hke]
        simp [hk]
      simp only [List.lookup, hq, hq0]
      exact ih
    · have hkf : (k0 == k) = false := by simpa using hk0
      have e1 : (if ((k0, v0).1 == k) = true then (k, v) else (k0, v0)) = (k0, v0) := by
        simp [hkf]
      rw [e1]
      by_cases hq : (k' == k0) = true
      · simp only [List.lookup, hq]
      · have hqf : (k' == k0) = false := by simpa using hq
        simp only [List.lookup, hqf]
        exact ih

theorem lookup_append_single (k v : String) :
    ∀ m : List (String × String), m.any (fun p => p.1 == k) = false →
      List.lookup k (m ++ [(k, v)]) = some v := by
  intro m
  induction m with
  | nil => simp [List.lookup]
  | cons a t ih =>
    intro h
    obtain ⟨k0, v0⟩ := a
    simp only [List.any_cons, Bool.or_eq_false_iff] at h
    have hk : (k == k0) = false := beq_flip_false k0 k h.1
    simp only [List.cons_append, List.lookup, hk]
    exact ih h.2

theorem lookup_append_single_other (k k' v : String) (hk : ¬ k' = k) :
    ∀ m : List (String × String),
      List.lookup k' (m ++ [(k, v)]) = List.lookup k' m := by
  intro m
  induction m with
  | nil =>
    have hq : (k' == k) = false := by simp [hk]
    simp [List.lookup, hq]
  | cons a t ih =>
    obtain ⟨k0, v0⟩ := a
    by_cases hq : (k' == k0) = true
    · simp only [List.cons_append, List.lookup, hq]
    · have hqf : (k' == k0) = false := by simpa using hq
      simp only [List.cons_append, List.lookup, hqf]
      exact ih

theorem lookup_insertLWW_self (m : List (String × String)) (k v : String) :
    List.lookup k (insertLWW m k v) = some v := by
  unfold insertLWW
  by_cases h : m.any (fun p => p.1 == k) = true
  · rw [if_pos h]
    exact lookup_map_update k v m h
  · rw [if_neg h]
    rw [Bool.not_eq_true] at h
    exact lookup_append_single k v m h

theorem lookup_insertLWW_other (m : List (String × String)) (k k' v : String)
    (hk : ¬ k' = k) : List.lookup k' (insertLWW m k v) = List.lookup k' m := by
  unfold insertLWW
  by_cases h : m.any (fun p => p.1 == k) = true
  · rw [if_pos h]
    exact lookup_map_update_other k k' v hk m
  · rw [if_neg h]
    exact lookup_append_single_other k k' v hk m

theorem lookup_insertAll (k : String) :
    ∀ (ps m : List (String × String)),
      List.lookup k (insertAll m ps) =
        ((ps.reverse.find? (fun p => p.1 == k)).map Prod.snd).or (List.lookup k m) := by
  intro ps
  induction ps with
  | nil => intro m; rfl
  | cons a t ih =>
    intro m
    obtain ⟨k0, v0⟩ := a
    show List.lookup k (insertAll (insertLWW m k0 v0) t) = _
    rw [ih (insertLWW m k0 v0)]
    rw [List.reverse_cons, List.find?_append]
    rcases hF : t.reverse.find? (fun p => p.1 == k) with _ | p <;> rw [hF]
    · by_cases hke : k0 = k
      · subst hke
        have e2 : List.find? (fun p => p.1 == k0) [(k0, v0)] = some (k0, v0) := by
          simp [List.find?]
        rw [e2]
        exact lookup_insertLWW_self m k0 v0
      · have hkf : (k0 == k) = false := by simp [hke]
        have e2 : List.find? (fun p => p.1 == k) [(k0, v0)] = none := by
          simp [List.find?, hkf]
        rw [e2]
        exact lookup_insertLWW_other m k0 k v0 (fun hh => hke hh.symm)
    · rfl

theorem insertAll_fresh : ∀ (ps m : List (String × String)),
    (∀ k' ∈ ps.map Prod.fst, m.any (fun p => p.1 == k') = false) →
    (ps.map Prod.fst).Nodup → insertAll m ps = m ++ ps := by
  intro ps
  induction ps with
  | nil => intro m _ _; simp [insertAll]
  | cons a t ih =>
    intro m hfresh hnodup
    obtain ⟨k0, v0⟩ := a
    show insertAll (insertLWW m k0 v0) t = _
    have hm : m.any (fun p => p.1 == k0) = false := hfresh k0 (by simp)
    have hins : insertLWW m k0 v0 = m ++ [(k0, v0)] := by
      unfold insertLWW
      rw [hm]
      simp
    rw [hins]
    simp only [List.map_cons, List.nodup_cons] at hnodup
    rw [ih (m ++ [(k0, v0)]) ?_ hnodup.2]
    · simp
    · intro k' hk'
      have h1 : m.any (fun p => p.1 == k') = false := hfresh k' (by simp; right; exact (by simpa using hk'))
      have h2 : ¬ k' = k0 := by
        intro he
        exact hnodup.1 (he ▸ hk')
      rw [List.any_append, h1]
      have h3 : (k0 == k') = false := by
        simp only [beq_eq_false_iff_ne, ne_eq]
        exact fun hh => h2 hh.symm
      simp [h3]

theorem insertLWW_length (m : List (String × String)) (k v : String) :
    m.length ≤ (insertLWW m k v).length := by
  unfold insertLWW
  split
  · rw [List.length_map]
  · rw [List.length_append]
    omega

theorem insertAll_length : ∀ (ps m : List (String × String)),
    m.length ≤ (insertAll m ps).length := by
  intro ps
  induction ps with
  | nil => intro m; exact le_refl _
  | cons a t ih =>
    intro m
    exact le_trans (insertLWW_length m a.1 a.2) (ih (insertLWW m a.1 a.2))

theorem insertAll_nil_iff (ps : List (String × String)) :
    insertAll [] ps = [] ↔ ps = [] := by
  constructor
  · intro h
    match ps, h with
    | [], _ => rfl
    | a :: t, h =>
      exfalso
      have h1 : insertAll ([] : List (String × String)) (a :: t) =
          insertAll [(a.1, a.2)] t := rfl
      rw [h1] at h
      have h2 := insertAll_length t [(a.1, a.2)]
      rw [h] at h2
      simp at h2
  · intro h; subst h; rfl

theorem splitAuxF_odd : ∀ (n : Nat) (acc l : List Char),
    (splitAuxF n acc l).length % 2 = 1 := by
  intro n
  induction n with
  | zero => intro acc l; rfl
  | succ n ih =>
    intro acc l
    have e : splitAuxF (n + 1) acc l =
        match matchMarker l with
        | some (f, rest) => acc.reverse.asString :: f.asString :: splitAuxF n [] rest
        | none =>
          match l with
          | [] => [acc.reverse.asString]
          | c :: cs => splitAuxF n (c :: acc) cs := rfl
    rw [e]
    rcases hm : matchMarker l with _ | ⟨f, rest⟩
    · match l with
      | [] => rfl
      | c :: cs => exact ih (c :: acc) cs
    · simp only [List.length_cons]
      have := ih ([] : List Char) rest
      omega

theorem pairsOf_length : ∀ xs : List String, (pairsOf xs).length = xs.length / 2
  | [] => rfl
  | [f] => by simp [pairsOf]
  | f :: c :: rest => by
    show ((f, c) :: pairsOf rest).length = (f :: c :: rest).length / 2
    rw [List.length_cons, pairsOf_length rest]
    simp only [List.length_cons]
    omega

theorem fallbackPairsAux_get :
    ∀ (docs : List (List Char)) (j i : Nat) (d : List Char),
      docs.get? i = some d →
      (fallbackPairsAux j docs).get? i =
        some (fallbackName (j + i) (stripYamlFences d), (stripYamlFences d).asString) := by
  intro docs
  induction docs with
  | nil => intro j i d h; simp at h
  | cons d0 t ih =>
    intro j i d h
    cases i with
    | zero =>
      simp only [List.get?] at h
      have hd : d0 = d := by injection h
      subst hd
      show some (fallbackName j (stripYamlFences d0), (stripYamlFences d0).asString) = _
      rfl
    | succ i =>
      simp only [List.get?] at h
      show (fallbackPairsAux (j + 1) t).get? i = _
      rw [ih (j + 1) i d h]
      have harith : j + 1 + i = j + (i + 1) := by omega
      rw [harith]

/-- C1 (amended): for raw text in which the splitter finds markers (non-empty
marker pairs) with pairwise-distinct filenames, `_parse_output` returns
exactly one entry per marker, keyed by the marker-declared filename, in
marker order; the split list always has odd length 2N+1, so a final marker
with no following content contributes an entry with empty content (N entries,
not N-1). -/
theorem claim_C1 (output : String) (h1 : markerPairs output ≠ [])
    (h2 : ((markerPairs output).map Prod.fst).Nodup) :
    k8s_parse_output output = markerPairs output ∧
    (markerPairs output).length = ((markerSplits output).length - 1) / 2 ∧
    (markerSplits output).length % 2 = 1 := by
  refine ⟨?_, ?_, splitAuxF_odd _ _ _⟩
  · have hall : insertAll [] (markerPairs output) = markerPairs output := by
      have h3 := insertAll_fresh (markerPairs output) [] (fun k' _ => rfl) h2
      simpa using h3
    have hne : (markerPairs output).isEmpty = false := by
      cases hmp : markerPairs output
      · exact absurd hmp h1
      · rfl
    show (if (insertAll [] (markerPairs output)).isEmpty then
        insertAll [] (fallbackPairs output)
      else insertAll [] (markerPairs output)) = markerPairs output
    rw [hall, hne]
    simp
  · show ((pairsOf (markerSplits output).tail).map
        (fun p => (pyStripS p.1, stripYamlFencesS p.2))).length = _
    rw [List.length_map, pairsOf_length, List.length_tail]

/-- Witness for C1 at a two-marker input with distinct filenames. -/
theorem claim_C1_witness :
    (markerPairs "pre\n---\n# FILE: a.yaml\nfoo: 1\n---\n# FILE: b.yaml\nbar: 2\n" ≠ [] ∧
     ((markerPairs "pre\n---\n# FILE: a.yaml\nfoo: 1\n---\n# FILE: b.yaml\nbar: 2\n").map
        Prod.fst).Nodup) ∧
    (k8s_parse_output "pre\n---\n# FILE: a.yaml\nfoo: 1\n---\n# FILE: b.yaml\nbar: 2\n" =
        markerPairs "pre\n---\n# FILE: a.yaml\nfoo: 1\n---\n# FILE: b.yaml\nbar: 2\n" ∧
      (markerPairs "pre\n---\n# FILE: a.yaml\nfoo: 1\n---\n# FILE: b.yaml\nbar: 2\n").length =
        ((markerSplits "pre\n---\n# FILE: a.yaml\nfoo: 1\n---\n# FILE: b.yaml\nbar: 2\n").length - 1) / 2 ∧
      (markerSplits "pre\n---\n# FILE: a.yaml\nfoo: 1\n---\n# FILE: b.yaml\nbar: 2\n").length % 2 = 1) :=
  ⟨by decide, claim_C1 "pre\n---\n# FILE: a.yaml\nfoo: 1\n---\n# FILE: b.yaml\nbar: 2\n"
    (by decide) (by decide)⟩

/-- C1 counterexample: on input consisting of exactly one well-formed marker
followed by end-of-string, the claim predicts N-1 = 0 entries (trailing
element dropped), but the code returns 1 entry mapping the filename to the
empty string: `re.split` always yields a trailing (empty) segment, so the
`i + 1 < len(splits)` guard never fires. -/
theorem claim_C1_counterexample :
    markerSplits "---\n# FILE: a.yaml\n" = ["", "a.yaml", ""] ∧
    k8s_parse_output "---\n# FILE: a.yaml\n" = [("a.yaml", "")] ∧
    (k8s_parse_output "---\n# FILE: a.yaml\n").length ≠ 0 := by decide

/-- C3: the artifact dictionary built by `_parse_output` maps every filename
to the content of the LAST pair producing it (last-write-wins, over the
marker pairs when any exist, otherwise over the fallback pairs), and the
concrete duplicate-marker input keeps only the later content; no error is
ever produced for a collision (the function is total and returns the dict). -/
theorem claim_C3 :
    (∀ (output : String) (k : String),
      List.lookup k (k8s_parse_output output) =
        ((if markerPairs output = [] then fallbackPairs output
          else markerPairs output).reverse.find? (fun p => p.1 == k)).map Prod.snd) ∧
    k8s_parse_output "---\n# FILE: dup\nfirst: 1\n---\n# FILE: dup\nsecond: 2\n" =
      [("dup", "second: 2")] := by
  refine ⟨fun output k => ?_, by decide⟩
  by_cases hmp : markerPairs output = []
  · rw [if_pos hmp]
    show List.lookup k (if (insertAll [] (markerPairs output)).isEmpty then
        insertAll [] (fallbackPairs output)
      else insertAll [] (markerPairs output)) = _
    rw [hmp]
    show List.lookup k (insertAll [] (fallbackPairs output)) = _
    rw [lookup_insertAll k (fallbackPairs output) []]
    rw [show List.lookup k ([] : List (String × String)) = none from rfl, Option.or_none]
  · rw [if_neg hmp]
    have hne : (insertAll [] (markerPairs output)).isEmpty = false := by
      rcases he : insertAll [] (markerPairs output) with _ | _
      · exact absurd ((insertAll_nil_iff _).mp he) hmp
      · rfl
    show List.lookup k (if (insertAll [] (markerPairs output)).isEmpty then
        insertAll [] (fallbackPairs output)
      else insertAll [] (markerPairs output)) = _
    rw [hne]
    simp only [Bool.false_eq_true, if_false]
    rw [lookup_insertAll k (markerPairs output) []]
    rw [show List.lookup k ([] : List (String × String)) = none from rfl, Option.or_none]

/-- C7: the fallback segmenter turns the raw text
`"---\nkind: Pod\nx: 1\n---\ny: 2"` into exactly the entries `pod.yaml`
(kind found, lowercased) and `manifest-2.yaml` (no kind, 1-based position);
in general the fragment at 0-based position `i` of the non-empty stripped
fragments yields the pair whose filename is `fallbackName i` of the
fence-stripped fragment. -/
theorem claim_C7 :
    k8s_parse_output "---\nkind: Pod\nx: 1\n---\ny: 2" =
      [("pod.yaml", "kind: Pod\nx: 1"), ("manifest-2.yaml", "y: 2")] ∧
    (∀ (output : String) (i : Nat) (d : List Char),
      (fallbackDocs output).get? i = some d →
      (fallbackPairs output).get? i =
        some (fallbackName i (stripYamlFences d), (stripYamlFences d).asString)) := by
  refine ⟨by decide, fun output i d h => ?_⟩
  have h0 := fallbackPairsAux_get (fallbackDocs output) 0 i d h
  simpa using h0

/-- Witness for C7's general part at the first fragment of the concrete
fallback input. -/
theorem claim_C7_witness :
    (fallbackDocs "---\nkind: Pod\nx: 1\n---\ny: 2").get? 0 =
        some ("kind: Pod\nx: 1".data) ∧
    (fallbackPairs "---\nkind: Pod\nx: 1\n---\ny: 2").get? 0 =
      some (fallbackName 0 (stripYamlFences ("kind: Pod\nx: 1".data)),
        (stripYamlFences ("kind: Pod\nx: 1".data)).asString) :=
  ⟨by decide,
    claim_C7.2 "---\nkind: Pod\nx: 1\n---\ny: 2" 0 ("kind: Pod\nx: 1".data) (by decide)⟩


theorem lookupY_none_of_any_false {β : Type} (k : String) :
    ∀ l : List (String × β), l.any (fun p => p.1 == k) = false →
      List.lookup k l = none := by
  intro l
  induction l with
  | nil => intro _; rfl
  | cons a t ih =>
    intro h
    obtain ⟨k0, v0⟩ := a
    simp only [List.any_cons, Bool.or_eq_false_iff] at h
    have hk : (k == k0) = false := by
      have h1 := h.1
      simp only [beq_eq_false_iff_ne, ne_eq] at h1 ⊢
      exact fun hh => h1 hh.symm
    simp only [List.lookup, hk]
    exact ih h.2

theorem lookupY_some_of_any {β : Type} (k : String) :
    ∀ l : List (String × β), l.any (fun p => p.1 == k) = true →
      ∃ v, List.lookup k l = some v := by
  intro l
  induction l with
  | nil => intro h; simp at h
  | cons a t ih =>
    intro h
    obtain ⟨k0, v0⟩ := a
    by_cases hk0 : (k0 == k) = true
    · have hkk : (k == k0) = true := by
        have he : k0 = k := by simpa using hk0
        simp [he]
      exact ⟨v0, by simp only [List.lookup, hkk]⟩
    · have hkf : (k0 == k) = false := by simpa using hk0
      have hk2 : (k == k0) = false := by
        simp only [beq_eq_false_iff_ne, ne_eq] at hkf ⊢
        exact fun hh => hkf hh.symm
      simp only [List.any_cons, Bool.or_eq_true] at h
      rcases h with h | h
      · simp only [hkf] at h
        exact absurd h (by decide)
      · obtain ⟨v, hv⟩ := ih h
        refine ⟨v, ?_⟩
        simp only [List.lookup, hk2]
        exact hv

theorem securitySugg_iff (sm : List (String × Yaml)) :
    securitySugg sm = true ↔
      ∃ tv, List.lookup "template" sm = some tv ∧
        ∃ ts, pyGet tv "spec" (Yaml.map []) = Except.ok ts ∧
          pyContains ts "securityContext" = Except.ok false := by
  unfold securitySugg
  rcases htv : List.lookup "template" sm with _ | tv
  · simp
  · simp only []
    rcases hg : pyGet tv "spec" (Yaml.map []) with e | ts
    · try rw [hg]
      simp
      intro x hx
      rw [hg] at hx
      exact absurd hx (by simp)
    · try rw [hg]
      simp only []
      rcases hc : pyContains ts "securityContext" with e | b
      · try rw [hc]
        simp
        intro x hx
        rw [hg] at hx
        injection hx with he
        subst he
        rw [hc]
        simp
      · try rw [hc]
        simp only []
        cases b
        · simp
          exact ⟨ts, hg, hc⟩
        · simp
          intro x hx
          rw [hg] at hx
          injection hx with he
          subst he
          rw [hc]
          simp

theorem inspectTemplate_sugg (v : Yaml) (sm : List (String × Yaml))
    (r : ValidationResult)
    (h1 : pyContains v "spec" = Except.ok true)
    (h2 : pyGetItem v "spec" = Except.ok (Yaml.map sm)) :
    (inspectTemplate v r).1.suggestions =
      r.suggestions ++ (if securitySugg sm then ["Consider adding securityContext for pod security"] else []) := by
  unfold inspectTemplate
  rw [h1]
  simp only []
  simp only [if_true]
  rw [h2]
  simp only []
  rw [show pyContains (Yaml.map sm) "template" =
    Except.ok (sm.any (fun p => p.1 == "template")) from rfl]
  simp only []
  by_cases hT : sm.any (fun p => p.1 == "template") = true
  · rw [if_pos hT]
    obtain ⟨tv, htv⟩ := lookupY_some_of_any "template" sm hT
    rw [show pyGetItem (Yaml.map sm) "template" = Except.ok tv from by
      unfold pyGetItem; simp only []; rw [htv]]
    simp only []
    rcases hg : pyGet tv "spec" (Yaml.map []) with e | ts
    · try rw [hg]
      simp only []
      rw [show securitySugg sm = false from by
        unfold securitySugg; rw [htv]; simp only []; rw [hg]]
      simp
    · try rw [hg]
      simp only []
      rcases hc : pyContains ts "securityContext" with e | b
      · try rw [hc]
        simp only []
        rw [show securitySugg sm = false from by
          unfold securitySugg; rw [htv]; simp only []; rw [hg]; simp only []; rw [hc]]
        simp
      · try rw [hc]
        simp only []
        rw [show securitySugg sm = !b from by
          unfold securitySugg; rw [htv]; simp only []; rw [hg]; simp only []; rw [hc]]
        cases b
        · simp [ValidationResult.add_suggestion]
        · simp
  · rw [if_neg hT]
    rw [Bool.not_eq_true] at hT
    have hTf : sm.any (fun p => p.1 == "template") = false := hT
    rw [show securitySugg sm = false from by
      unfold securitySugg; rw [lookupY_none_of_any_false "template" sm hTf]]
    simp

theorem inspectDeployment_sugg (a : Yaml) (md sm : List (String × Yaml))
    (r : ValidationResult) :
    (inspectDeployment (Yaml.map [("apiVersion", a), ("kind", Yaml.str "Deployment"), ("metadata", Yaml.map md), ("spec", Yaml.map sm)]) r).1.suggestions =
      r.suggestions ++ (if securitySugg sm then ["Consider adding securityContext for pod security"] else []) := by
  unfold inspectDeployment
  rw [show pyContains (Yaml.map [("apiVersion", a), ("kind", Yaml.str "Deployment"), ("metadata", Yaml.map md), ("spec", Yaml.map sm)]) "spec" = Except.ok true from rfl]
  simp only []
  simp only [if_true]
  rw [show pyGetItem (Yaml.map [("apiVersion", a), ("kind", Yaml.str "Deployment"), ("metadata", Yaml.map md), ("spec", Yaml.map sm)]) "spec" = Except.ok (Yaml.map sm) from rfl]
  simp only []
  rw [show pyContains (Yaml.map sm) "replicas" =
    Except.ok (sm.any (fun p => p.1 == "replicas")) from rfl]
  simp only []
  by_cases hR : sm.any (fun p => p.1 == "replicas") = true
  · rw [if_pos hR]
    exact inspectTemplate_sugg (Yaml.map [("apiVersion", a), ("kind", Yaml.str "Deployment"), ("metadata", Yaml.map md), ("spec", Yaml.map sm)]) sm r rfl rfl
  · rw [if_neg hR]
    rw [inspectTemplate_sugg (Yaml.map [("apiVersion", a), ("kind", Yaml.str "Deployment"), ("metadata", Yaml.map md), ("spec", Yaml.map sm)]) sm (r.add_warning _) rfl rfl]
    rfl

theorem inspectK8s_sugg (a : Yaml) (md sm : List (String × Yaml)) :
    (inspectK8s (Yaml.map [("apiVersion", a), ("kind", Yaml.str "Deployment"), ("metadata", Yaml.map md), ("spec", Yaml.map sm)]) ValidationResult.empty).1.suggestions =
      (if securitySugg sm then ["Consider adding securityContext for pod security"] else []) := by
  unfold inspectK8s
  rw [show pyContains (Yaml.map [("apiVersion", a), ("kind", Yaml.str "Deployment"), ("metadata", Yaml.map md), ("spec", Yaml.map sm)]) "apiVersion" = Except.ok true from rfl]
  simp only []
  rw [show pyContains (Yaml.map [("apiVersion", a), ("kind", Yaml.str "Deployment"), ("metadata", Yaml.map md), ("spec", Yaml.map sm)]) "kind" = Except.ok true from rfl]
  simp only []
  rw [show pyContains (Yaml.map [("apiVersion", a), ("kind", Yaml.str "Deployment"), ("metadata", Yaml.map md), ("spec", Yaml.map sm)]) "metadata" = Except.ok true from rfl]
  simp only []
  simp only [if_true]
  unfold inspectMetadata
  simp only [if_true]
  rw [show pyGetItem (Yaml.map [("apiVersion", a), ("kind", Yaml.str "Deployment"), ("metadata", Yaml.map md), ("spec", Yaml.map sm)]) "metadata" = Except.ok (Yaml.map md) from rfl]
  simp only []
  rw [show pyContains (Yaml.map md) "name" =
    Except.ok (md.any (fun p => p.1 == "name")) from rfl]
  simp only []
  unfold inspectKind
  rw [show pyGet (Yaml.map [("apiVersion", a), ("kind", Yaml.str "Deployment"), ("metadata", Yaml.map md), ("spec", Yaml.map sm)]) "kind" (Yaml.str "") = Except.ok (Yaml.str "Deployment") from rfl]
  simp only []
  rw [show yamlEqStr (Yaml.str "Deployment") "Deployment" = true from rfl]
  simp only [if_true]
  by_cases hN : md.any (fun p => p.1 == "name") = true
  · rw [if_pos hN]
    rw [inspectDeployment_sugg a md sm ValidationResult.empty]
    rfl
  · rw [if_neg hN]
    rw [inspectDeployment_sugg a md sm (ValidationResult.empty.add_error _)]
    rfl

/-- C2 (amended): for a Deployment manifest with top-level mapping
apiVersion/kind/metadata/spec (spec a mapping `sm`), the securityContext
suggestion is emitted iff `spec.template` exists, supports `.get`, and its
`spec` value — defaulting to the EMPTY mapping when `spec.template.spec` is
absent — does not contain `securityContext`. In particular the suggestion IS
emitted when `spec.template` exists but `spec.template.spec` does not. -/
theorem claim_C2 (a : Yaml) (md sm : List (String × Yaml)) :
    ("Consider adding securityContext for pod security" ∈
        (validate_kubernetes_manifest (Except.ok (Yaml.map [("apiVersion", a), ("kind", Yaml.str "Deployment"), ("metadata", Yaml.map md), ("spec", Yaml.map sm)]))).suggestions) ↔
      (∃ tv, List.lookup "template" sm = some tv ∧
        ∃ ts, pyGet tv "spec" (Yaml.map []) = Except.ok ts ∧
          pyContains ts "securityContext" = Except.ok false) := by
  have hv : (validate_kubernetes_manifest (Except.ok (Yaml.map [("apiVersion", a), ("kind", Yaml.str "Deployment"), ("metadata", Yaml.map md), ("spec", Yaml.map sm)]))).suggestions =
      (inspectK8s (Yaml.map [("apiVersion", a), ("kind", Yaml.str "Deployment"), ("metadata", Yaml.map md), ("spec", Yaml.map sm)]) ValidationResult.empty).1.suggestions := by
    show (match inspectK8s (Yaml.map [("apiVersion", a), ("kind", Yaml.str "Deployment"), ("metadata", Yaml.map md), ("spec", Yaml.map sm)]) ValidationResult.empty with
          | (r', none) => r'
          | (r', some e) => r'.add_error (genErrMsg e)).suggestions = _
    rcases h : inspectK8s (Yaml.map [("apiVersion", a), ("kind", Yaml.str "Deployment"), ("metadata", Yaml.map md), ("spec", Yaml.map sm)]) ValidationResult.empty with ⟨r', e⟩
    try rw [h]
    rcases e with _ | e
    · rfl
    · rfl
  rw [hv, inspectK8s_sugg a md sm, ← securitySugg_iff sm]
  by_cases hs : securitySugg sm = true
  · simp [hs]
  · have hsf : securitySugg sm = false := by simpa using hs
    simp [hsf]

/-- C2 counterexample: a Deployment whose `spec.template` exists as an empty
mapping (so `spec.template.spec` does NOT exist) still gets the
securityContext suggestion, because `.get("spec", dict())` defaults to the
empty dict, which lacks `securityContext` — contradicting the claim that no
suggestion is emitted when `spec.template.spec` is absent. -/
theorem claim_C2_counterexample :
    (List.lookup "template" [("replicas", Yaml.int 1), ("template", Yaml.map [])] =
        some (Yaml.map []) ∧
      List.lookup "spec" ([] : List (String × Yaml)) = none) ∧
    (validate_kubernetes_manifest (Except.ok (Yaml.map [("apiVersion", Yaml.str "apps/v1"),
        ("kind", Yaml.str "Deployment"), ("metadata", Yaml.map [("name", Yaml.str "app")]),
        ("spec", Yaml.map [("replicas", Yaml.int 1),
          ("template", Yaml.map [])])]))).suggestions =
      ["Consider adding securityContext for pod security"] :=
  ⟨⟨rfl, rfl⟩, rfl⟩

theorem genCount_add_error (r : ValidationResult) (m : String)
    (hm : startsGeneric m = false) :
    (r.add_error m).errors.countP startsGeneric = r.errors.countP startsGeneric := by
  simp [ValidationResult.add_error, List.countP_append, List.countP_cons, hm]

theorem inspectTemplate_gen (v : Yaml) (r : ValidationResult) :
    (inspectTemplate v r).1.errors.countP startsGeneric =
      r.errors.countP startsGeneric := by
  unfold inspectTemplate
  rcases h1 : pyContains v "spec" with e | hasSpec <;> try rw [h1]
  · rfl
  · simp only []
    cases hasSpec
    · rfl
    · simp only [if_true]
      rcases h2 : pyGetItem v "spec" with e | sv <;> try rw [h2]
      · rfl
      · simp only []
        rcases h3 : pyContains sv "template" with e | hasTmpl <;> try rw [h3]
        · rfl
        · simp only []
          cases hasTmpl
          · rfl
          · simp only [if_true]
            rcases h4 : pyGetItem sv "template" with e | tv <;> try rw [h4]
            · rfl
            · simp only []
              rcases h5 : pyGet tv "spec" (Yaml.map []) with e | ts <;> try rw [h5]
              · rfl
              · simp only []
                rcases h6 : pyContains ts "securityContext" with e | hasSC <;> try rw [h6]
                · rfl
                · simp only []
                  cases hasSC <;> rfl

theorem inspectService_gen (v : Yaml) (r : ValidationResult) :
    (inspectService v r).1.errors.countP startsGeneric =
      r.errors.countP startsGeneric := by
  unfold inspectService
  rcases h1 : pyContains v "spec" with e | hasSpec <;> try rw [h1]
  · rfl
  · simp only []
    cases hasSpec
    · simp only [Bool.false_eq_true, if_false]
      exact genCount_add_error r "Service missing spec field" (by decide)
    · simp only [if_true]
      rcases h2 : pyGetItem v "spec" with e | sv <;> try rw [h2]
      · rfl
      · simp only []
        rcases h3 : pyContains sv "ports" with e | hasPorts <;> try rw [h3]
        · rfl
        · simp only []
          cases hasPorts
          · simp only [Bool.false_eq_true, if_false]
            exact genCount_add_error r "Service spec missing ports" (by decide)
          · rfl

theorem inspectDeployment_gen (v : Yaml) (r : ValidationResult) :
    (inspectDeployment v r).1.errors.countP startsGeneric =
      r.errors.countP startsGeneric := by
  unfold inspectDeployment
  rcases h1 : pyContains v "spec" with e | hasSpec <;> try rw [h1]
  · rfl
  · simp only []
    cases hasSpec
    · simp only [Bool.false_eq_true, if_false]
      rw [inspectTemplate_gen]
      exact genCount_add_error r "Deployment missing spec field" (by decide)
    · simp only [if_true]
      rcases h2 : pyGetItem v "spec" with e | sv <;> try rw [h2]
      · rfl
      · simp only []
        rcases h3 : pyContains sv "replicas" with e | hasRep <;> try rw [h3]
        · rfl
        · simp only []
          cases hasRep
          · simp only [Bool.false_eq_true, if_false]
            rw [inspectTemplate_gen]
            rfl
          · simp only [if_true]
            rw [inspectTemplate_gen]

theorem inspectKind_gen (v : Yaml) (r : ValidationResult) :
    (inspectKind v r).1.errors.countP startsGeneric =
      r.errors.countP startsGeneric := by
  unfold inspectKind
  rcases h1 : pyGet v "kind" (Yaml.str "") with e | kind <;> try rw [h1]
  · rfl
  · simp only []
    by_cases hd : yamlEqStr kind "Deployment" = true
    · rw [if_pos hd]
      exact inspectDeployment_gen v r
    · rw [if_neg hd]
      by_cases hs : yamlEqStr kind "Service" = true
      · rw [if_pos hs]
        exact inspectService_gen v r
      · rw [if_neg hs]

theorem inspectMetadata_gen (v : Yaml) (hasMeta : Bool) (r : ValidationResult) :
    (inspectMetadata v hasMeta r).1.errors.countP startsGeneric =
      r.errors.countP startsGeneric := by
  unfold inspectMetadata
  cases hasMeta
  · simp only [Bool.false_eq_true, if_false]
    exact inspectKind_gen v r
  · simp only [if_true]
    rcases h1 : pyGetItem v "metadata" with e | mv <;> try rw [h1]
    · rfl
    · simp only []
      rcases h2 : pyContains mv "name" with e | hasName <;> try rw [h2]
      · rfl
      · simp only []
        cases hasName
        · simp only [Bool.false_eq_true, if_false]
          rw [inspectKind_gen]
          exact genCount_add_error r "Missing required field: metadata.name" (by decide)
        · simp only [if_true]
          exact inspectKind_gen v r

theorem inspectK8s_gen (v : Yaml) (r : ValidationResult) :
    (inspectK8s v r).1.errors.countP startsGeneric =
      r.errors.countP startsGeneric := by
  unfold inspectK8s
  rcases h1 : pyContains v "apiVersion" with e | hasApi <;> try rw [h1]
  · rfl
  · simp only []
    rcases h2 : pyContains v "kind" with e | hasKind <;> try rw [h2]
    · simp only []
      cases hasApi <;>
        simp only [if_true, Bool.false_eq_true, if_false] <;>
        repeat'
          first
          | rfl
          | rw [genCount_add_error _ "Missing required field: apiVersion" (by decide)]
    · simp only []
      rcases h3 : pyContains v "metadata" with e | hasMeta <;> try rw [h3]
      · simp only []
        cases hasApi <;> cases hasKind <;>
          simp only [if_true, Bool.false_eq_true, if_false] <;>
          repeat'
            first
            | rfl
            | rw [genCount_add_error _ "Missing required field: kind" (by decide)]
            | rw [genCount_add_error _ "Missing required field: apiVersion" (by decide)]
      · simp only []
        rw [inspectMetadata_gen]
        cases hasApi <;> cases hasKind <;> cases hasMeta <;>
          simp only [if_true, Bool.false_eq_true, if_false] <;>
          repeat'
            first
            | rfl
            | rw [genCount_add_error _ "Missing required field: apiVersion" (by decide)]
            | rw [genCount_add_error _ "Missing required field: kind" (by decide)]
            | rw [genCount_add_error _ "Missing required field: metadata" (by decide)]

theorem isPrefixOf_append_self : ∀ (p s : List Char), p.isPrefixOf (p ++ s) = true := by
  intro p
  induction p with
  | nil => intro s; exact nil_isPrefixOf_any s
  | cons a as ih =>
    intro s
    rw [List.cons_append, isPrefixOf_cons_cons]
    simp [ih s]

theorem startsGeneric_genErrMsg (e : String) : startsGeneric (genErrMsg e) = true := by
  show ("Validation error: ".data).isPrefixOf (("Validation error: " ++ e).data) = true
  rw [show ("Validation error: " ++ e).data = "Validation error: ".data ++ e.data from rfl]
  exact isPrefixOf_append_self _ _

theorem startsGeneric_yamlErr (e : String) :
    startsGeneric ("YAML syntax error: " ++ e) = false := by
  show ("Validation error: ".data).isPrefixOf (("YAML syntax error: " ++ e).data) = false
  rw [show ("YAML syntax error: " ++ e).data = 'Y' :: ("AML syntax error: ".data ++ e.data) from rfl]
  rw [show ("Validation error: ".data : List Char) = 'V' :: "alidation error: ".data from rfl]
  rw [isPrefixOf_cons_cons]
  simp

/-- C4: the structured-manifest validator is a total function of the parse
outcome (it always returns a `ValidationResult`), and the number of generic
`"Validation error: "` entries in its error list is exactly one when a fault
escapes the structural inspection and zero otherwise (in particular zero on
YAML syntax errors): every internal fault is caught and converted into a
single generic error entry. -/
theorem claim_C4 (p : Except String Yaml) :
    (validate_kubernetes_manifest p).errors.countP startsGeneric =
      (match p with
       | .error _ => 0
       | .ok v => if ((inspectK8s v ValidationResult.empty).2).isSome then 1 else 0) := by
  rcases p with e | v
  · show (ValidationResult.empty.add_error
      ("YAML syntax error: " ++ e)).errors.countP startsGeneric = 0
    rw [genCount_add_error _ _ (startsGeneric_yamlErr e)]
    rfl
  · show (match inspectK8s v ValidationResult.empty with
        | (r', none) => r'
        | (r', some e) => r'.add_error (genErrMsg e)).errors.countP startsGeneric = _
    rcases h : inspectK8s v ValidationResult.empty with ⟨r', e?⟩
    try rw [h]
    have hr' : r'.errors.countP startsGeneric = 0 := by
      have h0 := inspectK8s_gen v ValidationResult.empty
      rw [h] at h0
      exact h0
    rcases e? with _ | e
    · simp only []
      rw [hr']
      simp [h]
    · simp only []
      simp [ValidationResult.add_error, List.countP_append, List.countP_cons, hr',
        startsGeneric_genErrMsg e, h]
